import Mathlib

/-!
Verification of the streaming chat client core.

The embedding models the two client modules that contain the real logic:

* `queryAgentStream` (stream orchestrator, frame decoder and event dispatch):
  the function reads byte buffers, accumulates them in a carry-over buffer,
  splits on the blank-line separator (two consecutive newlines, as the
  JavaScript `buffer.split(two newlines)` call), keeps the last part as the
  new carry, and dispatches each complete record that carries the
  `data: ` marker through `JSON.parse` and a `type` dispatch chain.
  Host-provided facilities are made explicit: the HTTP response is a value of
  `HttpResponse`, text buffers are `List Char`, and `JSON.parse` together
  with the dynamic field reads is a parameter `parse : Str -> Option JsonData`
  (`none` models a parse exception caught by the handler).  Callback calls
  are collected as a trace `List Out` in invocation order.

* the page-lifecycle and conversation handlers of the chat component
  (`handlePageHide`, `handleConversationSelect`, `handleNewChat`), modelled
  as pure functions of the component state and of the outcome of the
  awaited collaborator calls.
-/

/-- Decoded text, as the JavaScript code sees it after `TextDecoder`. -/
abbrev Str := List Char

/-- JavaScript `s.startsWith(p)`. -/
def strStartsWith : Str → Str → Bool
  | _, [] => true
  | [], _ :: _ => false
  | c :: s, p :: ps => c = p && strStartsWith s ps

/-- Prepend a character to the first part of a split result
(helper for `splitSep`). -/
def consHead (c : Char) : List Str → List Str
  | [] => [[c]]
  | h :: t => (c :: h) :: t

/-- JavaScript `s.split(sep)` for the two-newline separator used at the
`buffer.split` call of `queryAgentStream`: leftmost-first, non-overlapping
matches; the result is never empty. -/
def splitSep : Str → List Str
  | [] => [[]]
  | [c] => [[c]]
  | c :: d :: rest =>
      if c = '\n' ∧ d = '\n' then [] :: splitSep rest
      else consHead c (splitSep (d :: rest))

/-- True when the string contains no occurrence of the two-newline
separator. -/
def noSep : Str → Bool
  | [] => true
  | [_] => true
  | c :: d :: rest => if c = '\n' ∧ d = '\n' then false else noSep (d :: rest)

/-- The concatenation of a sequence of buffers. -/
def joinAll : List Str → Str
  | [] => []
  | b :: bs => b ++ joinAll bs

/-- True when the string ends with a newline character. -/
def endsWithNewline : Str → Bool
  | [] => false
  | [c] => c = '\n'
  | _ :: d :: rest => endsWithNewline (d :: rest)

/-- A well-formed wire record: it contains no record separator and does not
end in a newline, so that appending the separator creates exactly one new
separator occurrence at the boundary. -/
def wellFormed (r : Str) : Bool :=
  noSep r && !endsWithNewline r

/-- The raw text of a sequence of records, each terminated by the
blank-line separator. -/
def joinRecords : List Str → Str
  | [] => []
  | r :: rs => r ++ '\n' :: '\n' :: joinRecords rs

/-- One round of the frame decoder (lines 98 to 100 of the orchestrator):
append the new buffer to the carry, split on the separator, keep the last
part as the new carry and emit the other parts as complete records. -/
def decodeStep (buffer value : Str) : List Str × Str :=
  ((splitSep (buffer ++ value)).dropLast, (splitSep (buffer ++ value)).getLastD [])

/-- The frame decoder run over a whole sequence of buffers: the complete
records emitted, in arrival order.  At end of stream the leftover carry is
discarded. -/
def decodeAll (buffer : Str) : List Str → List Str
  | [] => []
  | value :: rest =>
      (decodeStep buffer value).1 ++ decodeAll (decodeStep buffer value).2 rest

/-- The result of `JSON.parse` on a record body, restricted to the fields
the orchestrator reads.  A field is `none` when absent (JavaScript
`undefined`); only string-valued fields are modelled, non-string values
behave as absent for the dispatch comparisons. -/
structure JsonData where
  type : Option Str
  session_id : Option Str
  content : Option Str
  response : Option Str
  error : Option Str
deriving DecidableEq

/-- JavaScript `a || b` for a possibly absent string `a`: the fallback is
used when `a` is absent or empty (falsy). -/
def jsOr : Option Str → Str → Str
  | some s, fallback => if s = [] then fallback else s
  | none, fallback => fallback

/-- JavaScript string coercion of a possibly absent string value: an absent
value concatenates and renders as the text `undefined`. -/
def jsUndef : Option Str → Str
  | some s => s
  | none => "undefined".data

/-- One callback invocation observed by the caller of the orchestrator. -/
inductive Out where
  | chunk (content : Str)
  | complete (fullResponse : Str) (sessionId : Str)
  | error (message : Str)
deriving DecidableEq

/-- Mutable locals of the read loop of `queryAgentStream` (besides the
carry-over buffer, which is threaded separately). -/
structure StreamState where
  fullResponse : Str
  currentSessionId : Option Str
deriving DecidableEq

/-- The record marker checked by `line.startsWith` in the dispatch loop. -/
def dataMarker : Str := "data: ".data

/-- The `type` discriminator of a session record. -/
def sessionTag : Str := "session".data

/-- The `type` discriminator of a chunk record. -/
def chunkTag : Str := "chunk".data

/-- The `type` discriminator of a done record. -/
def doneTag : Str := "done".data

/-- The `type` discriminator of an error record. -/
def errorTag : Str := "error".data

/-- Dispatch of one complete record (lines 102 to 123 of the orchestrator):
the `data: ` marker check, `JSON.parse` (`parse`, `none` for the caught
exception), and the `type` dispatch chain.  Returns the updated state, the
callback invocations, and whether the function returned (terminal event). -/
def processLine (parse : Str → Option JsonData) (st : StreamState) (line : Str) :
    StreamState × List Out × Bool :=
  if strStartsWith line dataMarker then
    match parse (List.drop 6 line) with
    | none => (st, [], false)
    | some d =>
        if d.type = some sessionTag then
          ({ st with currentSessionId := d.session_id }, [], false)
        else if d.type = some chunkTag then
          ({ st with fullResponse := st.fullResponse ++ jsUndef d.content },
            [Out.chunk (jsUndef d.content)], false)
        else if d.type = some doneTag then
          (st, [Out.complete (jsOr d.response st.fullResponse)
                  (jsOr d.session_id (jsOr st.currentSessionId []))], true)
        else if d.type = some errorTag then
          (st, [Out.error (jsOr d.error ("Unknown error".data))], true)
        else (st, [], false)
  else (st, [], false)

/-- The `for` loop over the complete records of one buffer: dispatch each
record in order, stopping at the first terminal event (the `return`
statements inside the loop). -/
def processLines (parse : Str → Option JsonData) (st : StreamState) :
    List Str → StreamState × List Out × Bool
  | [] => (st, [], false)
  | line :: rest =>
      let r := processLine parse st line
      if r.2.2 then r
      else
        let r2 := processLines parse r.1 rest
        (r2.1, r.2.1 ++ r2.2.1, r2.2.2)

/-- The `while` read loop of `queryAgentStream`: decode each buffer,
dispatch its records, stop reading at a terminal event; at end of stream
(`done`) the loop breaks and the leftover carry is discarded.  Returns the
callback trace and whether a terminal event was dispatched. -/
def processBuffers (parse : Str → Option JsonData) (st : StreamState) (buffer : Str) :
    List Str → List Out × Bool
  | [] => ([], false)
  | value :: rest =>
      let dec := decodeStep buffer value
      let r := processLines parse st dec.1
      if r.2.2 then (r.2.1, true)
      else
        let rb := processBuffers parse r.1 dec.2 rest
        (r.2.1 ++ rb.1, rb.2)

/-- The HTTP response obtained by the initial `fetch`, as the orchestrator
observes it.  `failure` is a non-success status: `detail` is the parsed
`detail` field of the error body when the body parses as JSON (the
rejection handler supplies the text `Unknown error`), `body` is the
response body, which the code never reads on this path.  `okThrow` is a
transport failure: the reader delivers `body` and then the next read
throws with the given message. -/
inductive HttpResponse where
  | netError (message : Str)
  | failure (detail : Option Str) (status : Nat) (body : List Str)
  | okNoBody
  | ok (body : List Str)
  | okThrow (body : List Str) (message : Str)
deriving DecidableEq

/-- The generic message built by the template literal on the non-success
path. -/
def statusMessage (status : Nat) : Str :=
  ("HTTP error! status: " ++ toString status).data

/-- The stream orchestrator `queryAgentStream` (lines 55 to 128): the trace
of callback invocations for a given parse function, caller session id and
HTTP response. -/
def queryAgentStream (parse : Str → Option JsonData) (sessionId : Option Str)
    (resp : HttpResponse) : List Out :=
  match resp with
  | .netError message => [Out.error message]
  | .failure detail status _body => [Out.error (jsOr detail (statusMessage status))]
  | .okNoBody => [Out.error ("No response body".data)]
  | .ok body => (processBuffers parse ⟨[], sessionId⟩ [] body).1
  | .okThrow body message =>
      let r := processBuffers parse ⟨[], sessionId⟩ [] body
      if r.2 then r.1 else r.1 ++ [Out.error message]

/-- True for the terminal callbacks. -/
def isTerm : Out → Bool
  | .chunk _ => false
  | .complete _ _ => true
  | .error _ => true

/-- The callback sequence asserted by the claim as stated: zero or more
chunks followed by exactly one terminal callback. -/
def seqOk : List Out → Bool
  | [] => false
  | [o] => isTerm o
  | o :: rest => !isTerm o && seqOk rest

/-- The callback sequence the code guarantees: a terminal callback occurs
only in last position (so zero or more chunks, then at most one
terminal). -/
def traceOk : List Out → Bool
  | [] => true
  | o :: rest => if isTerm o then rest.isEmpty else traceOk rest

/-- The parsed events of a record list, in order: the records that carry
the marker and whose body parses. -/
def parsedEvents (parse : Str → Option JsonData) : List Str → List JsonData
  | [] => []
  | line :: rest =>
      match (if strStartsWith line dataMarker then parse (List.drop 6 line) else none) with
      | none => parsedEvents parse rest
      | some d => d :: parsedEvents parse rest

/-- The running full-text buffer after a list of events: the concatenation
of the (coerced) content of the chunk events, in order. -/
def chunksConcat : List JsonData → Str
  | [] => []
  | d :: rest =>
      (if d.type = some chunkTag then jsUndef d.content else []) ++ chunksConcat rest

/-- The session id tracked by the loop after a list of events: the
`session_id` field of the most recent session event, the initial value
when no session event occurred. -/
def lastSessionSid (init : Option Str) : List JsonData → Option Str
  | [] => init
  | d :: rest =>
      lastSessionSid (if d.type = some sessionTag then d.session_id else init) rest

/-- A concrete stand-in for `JSON.parse` on a handful of record bodies,
used to evaluate the theorems on closed inputs.  Every other body fails to
parse. -/
def parseDemo : Str → Option JsonData := fun s =>
  if s = "sessS".data then some ⟨some sessionTag, some ("S".data), none, none, none⟩
  else if s = "chunkA".data then some ⟨some chunkTag, none, some ("A".data), none, none⟩
  else if s = "chunkB".data then some ⟨some chunkTag, none, some ("B".data), none, none⟩
  else if s = "doneNone".data then some ⟨some doneTag, none, none, none, none⟩
  else if s = "doneEmptySid".data then some ⟨some doneTag, some [], none, none, none⟩
  else if s = "errBoom".data then some ⟨some errorTag, none, none, none, some ("boom".data)⟩
  else none

/-- A session-cleanup request issued on page hide. -/
inductive CleanupRequest where
  | deleteSession (sessionId : Str)
deriving DecidableEq

/-- The page-hide handler of the chat component together with its
registration guard (lines 47 to 78: the effect registers the listener only
when the session id is set and truthy).  `persisted` is the `persisted`
flag of the page transition event; `navType` is the `type` field of the
navigation timing entry of the current load, `none` when no entry exists.
Returns the deletion requests issued; the code swallows the outcome of the
request, so no outcome is modelled. -/
def handlePageHide (sessionId : Option Str) (persisted : Bool) (navType : Option Str) :
    List CleanupRequest :=
  match sessionId with
  | none => []
  | some sid =>
    if sid = [] then []
    else if persisted = false then
      if navType = some ("reload".data) then []
      else [CleanupRequest.deleteSession sid]
    else []

/-- A message displayed by the chat component. -/
structure ChatMsg where
  role : Str
  content : Str
  id : Option Str
deriving DecidableEq

/-- A persisted conversation message returned by the messages endpoint. -/
structure ConvMessage where
  id : Str
  conversation_id : Str
  role : Str
  content : Str
  created_at : Str
deriving DecidableEq

/-- The chat component state touched by the conversation handlers. -/
structure ChatState where
  messages : List ChatMsg
  sessionId : Option Str
  isHomePage : Bool
  currentConversationId : Option Str
  conversationTitle : Str
  isLoading : Bool
deriving DecidableEq

/-- Outcome of the awaited conversation fetches inside
`handleConversationSelect`: the conversation title and message list on
success, or a rejection of either fetch. -/
inductive LoadResult where
  | success (title : Option Str) (msgs : List ConvMessage)
  | failure
deriving DecidableEq

/-- `handleConversationSelect` (lines 208 to 238): the conversation id is
set before the awaited loads; on success the messages are replaced, the
home flag cleared, the session id cleared and the title set (with its
fallback); on failure the catch block only alerts, so every other field
keeps its previous value. -/
def handleConversationSelect (st : ChatState) (conversationId : Str) (r : LoadResult) :
    ChatState :=
  match r with
  | .success title msgs =>
      { st with
        isLoading := false,
        currentConversationId := some conversationId,
        messages := msgs.map (fun m => ⟨m.role, m.content, some m.id⟩),
        isHomePage := false,
        sessionId := none,
        conversationTitle := jsOr title ("Untitled Chat".data) }
  | .failure =>
      { st with
        isLoading := false,
        currentConversationId := some conversationId }

/-- `handleNewChat` (lines 241 to 247). -/
def handleNewChat (st : ChatState) : ChatState :=
  { st with
    messages := [],
    currentConversationId := none,
    conversationTitle := "New Chat".data,
    isHomePage := true,
    sessionId := none }

/-- The session id argument `handleSubmit` passes to `queryAgentStream`
(line 144): the session id of the component state. -/
def submitSessionArg (st : ChatState) : Option Str := st.sessionId

/-- The session id choice the wording of claim C3 describes, taking the
field literally when present: the value carried on the done event if that
field is present, else the one from the last session event, else the
caller-supplied one, else empty. -/
def specDoneSessionId (eventSid lastAssigned callerSid : Option Str) : Str :=
  match eventSid with
  | some s => s
  | none =>
    match lastAssigned with
    | some s => s
    | none =>
      match callerSid with
      | some s => s
      | none => []

/-- A demonstration component state with an active session. -/
def demoState : ChatState :=
  { messages := [], sessionId := some ("S".data), isHomePage := false,
    currentConversationId := some ("conv1".data),
    conversationTitle := "New Chat".data, isLoading := false }

/-! Lemmas about the split function of the frame decoder. -/

theorem noSep_cons2 (c d : Char) (rest : Str) :
    noSep (c :: d :: rest) = if c = '\n' ∧ d = '\n' then false else noSep (d :: rest) := rfl

theorem noSep_cons2_elim (c d : Char) (rest : Str) (h : noSep (c :: d :: rest) = true) :
    ¬(c = '\n' ∧ d = '\n') ∧ noSep (d :: rest) = true := by
  by_cases hc : c = '\n' ∧ d = '\n'
  · rw [noSep_cons2, if_pos hc] at h
    exact absurd h (by simp)
  · rw [noSep_cons2, if_neg hc] at h
    exact ⟨hc, h⟩

theorem noSep_cons2_intro (c d : Char) (rest : Str) (h1 : ¬(c = '\n' ∧ d = '\n'))
    (h2 : noSep (d :: rest) = true) : noSep (c :: d :: rest) = true := by
  rw [noSep_cons2, if_neg h1]
  exact h2

theorem splitSep_ne_nil : ∀ s : Str, splitSep s ≠ []
  | [] => by simp [splitSep]
  | [c] => by simp [splitSep]
  | c :: d :: rest => by
    by_cases h : c = '\n' ∧ d = '\n'
    · simp [splitSep, h]
    · simp only [splitSep, if_neg h]
      cases hs : splitSep (d :: rest) with
      | nil => exact absurd hs (splitSep_ne_nil (d :: rest))
      | cons a t => simp [consHead]

theorem splitSep_sep (rest : Str) : splitSep ('\n' :: '\n' :: rest) = [] :: splitSep rest := by
  simp [splitSep]

theorem splitSep_cons_ne (c d : Char) (rest : Str) (h : ¬(c = '\n' ∧ d = '\n')) :
    splitSep (c :: d :: rest) = consHead c (splitSep (d :: rest)) := by
  simp only [splitSep, if_neg h]

/-- Structure of the first part of a split of a non-empty string: either
the string begins with the separator and the first part is empty, or the
first part begins with the first character of the string. -/
theorem splitSep_head_struct (d : Char) (r : Str) :
    (∃ r2, d = '\n' ∧ r = '\n' :: r2 ∧ splitSep (d :: r) = [] :: splitSep r2) ∨
    (∃ h' t', splitSep (d :: r) = (d :: h') :: t') := by
  cases r with
  | nil => exact Or.inr ⟨[], [], rfl⟩
  | cons e r2 =>
    by_cases h : d = '\n' ∧ e = '\n'
    · obtain ⟨h1, h2⟩ := h
      subst h1; subst h2
      exact Or.inl ⟨r2, rfl, rfl, splitSep_sep r2⟩
    · rw [splitSep_cons_ne d e r2 h]
      cases hs : splitSep (e :: r2) with
      | nil => exact absurd hs (splitSep_ne_nil (e :: r2))
      | cons a t => exact Or.inr ⟨a, t, by simp [consHead]⟩

theorem splitSep_singleton (d : Char) (r : Str) (h0 : Str)
    (h : splitSep (d :: r) = [h0]) : ∃ h', h0 = d :: h' := by
  rcases splitSep_head_struct d r with ⟨r2, _, _, he⟩ | ⟨h', t', he⟩
  · rw [he] at h
    injection h with h1 h2
    exact absurd h2 (splitSep_ne_nil r2)
  · rw [he] at h
    injection h with h1 h2
    exact ⟨h', h1.symm⟩

/-- Every part produced by the split is free of the separator. -/
theorem splitSep_all_noSep : ∀ s : Str, (splitSep s).all noSep = true
  | [] => rfl
  | [_] => rfl
  | c :: d :: rest => by
    by_cases h : c = '\n' ∧ d = '\n'
    · obtain ⟨rfl, rfl⟩ := h
      rw [splitSep_sep]
      simpa [List.all_cons, noSep] using splitSep_all_noSep rest
    · rw [splitSep_cons_ne c d rest h]
      have ih := splitSep_all_noSep (d :: rest)
      cases hs : splitSep (d :: rest) with
      | nil => exact absurd hs (splitSep_ne_nil _)
      | cons a t =>
        rw [hs, List.all_cons, Bool.and_eq_true] at ih
        simp only [consHead, List.all_cons, Bool.and_eq_true]
        refine ⟨?_, ih.2⟩
        rcases splitSep_head_struct d rest with ⟨r2, _, _, he⟩ | ⟨h', t', he⟩
        · rw [he] at hs
          injection hs with h1 _
          rw [← h1]
          rfl
        · rw [he] at hs
          injection hs with h1 _
          rw [← h1]
          rw [← h1] at ih
          exact noSep_cons2_intro c d h' h ih.1

theorem noSep_getLastD : ∀ l : List Str, l.all noSep = true → noSep (l.getLastD []) = true
  | [], _ => rfl
  | [a], h => by simpa [List.all_cons] using h
  | _ :: b :: t, h => by
    rw [List.all_cons, Bool.and_eq_true] at h
    exact noSep_getLastD (b :: t) h.2

/-- A separator-free string splits into the single part that is the whole
string. -/
theorem splitSep_of_noSep : ∀ s : Str, noSep s = true → splitSep s = [s]
  | [], _ => rfl
  | [_], _ => rfl
  | c :: d :: rest, h => by
    have hsp := noSep_cons2_elim c d rest h
    rw [splitSep_cons_ne c d rest hsp.1, splitSep_of_noSep (d :: rest) hsp.2]
    rfl

/-- Splitting a concatenation: the parts of the left string are kept except
the last one, which becomes the carry for splitting the rest.  This is the
statement that the byte-buffering decoder is insensitive to where the
input is cut. -/
theorem splitSep_append : ∀ s t : Str,
    splitSep (s ++ t)
      = (splitSep s).dropLast ++ splitSep ((splitSep s).getLastD [] ++ t)
  | [], t => by simp [splitSep]
  | [c], t => by simp [splitSep]
  | c :: d :: s', t => by
    by_cases h : c = '\n' ∧ d = '\n'
    · obtain ⟨rfl, rfl⟩ := h
      show splitSep ('\n' :: '\n' :: (s' ++ t)) = _
      rw [splitSep_sep, splitSep_append s' t, splitSep_sep,
        List.dropLast_cons_of_ne_nil (splitSep_ne_nil s'), List.getLastD_cons,
        List.cons_append]
    · show splitSep (c :: d :: (s' ++ t)) = _
      rw [splitSep_cons_ne c d (s' ++ t) h,
        show d :: (s' ++ t) = (d :: s') ++ t from rfl,
        splitSep_append (d :: s') t, splitSep_cons_ne c d s' h]
      cases hs : splitSep (d :: s') with
      | nil => exact absurd hs (splitSep_ne_nil _)
      | cons a t0 =>
        cases t0 with
        | nil =>
          obtain ⟨a2, ha2⟩ := splitSep_singleton d s' a hs
          subst ha2
          simp only [consHead, List.dropLast_single, List.nil_append,
            List.getLastD_cons, List.getLastD_nil]
          rw [show (d :: a2) ++ t = d :: (a2 ++ t) from rfl,
            show (c :: d :: a2) ++ t = c :: d :: (a2 ++ t) from rfl,
            splitSep_cons_ne c d (a2 ++ t) h]
          rfl
        | cons e t1 =>
          simp only [consHead, List.getLastD_cons, List.dropLast_cons₂]
          rfl

theorem splitSep_record : ∀ r x : Str, noSep r = true → endsWithNewline r = false →
    splitSep (r ++ '\n' :: '\n' :: x) = r :: splitSep x
  | [], x, _, _ => splitSep_sep x
  | [c], x, _, he => by
    have hc : ¬(c = '\n' ∧ '\n' = '\n') := by
      intro hcon
      rw [show endsWithNewline [c] = decide (c = '\n') from rfl, hcon.1] at he
      simp at he
    show splitSep (c :: '\n' :: '\n' :: x) = _
    rw [splitSep_cons_ne c '\n' ('\n' :: x) hc, splitSep_sep]
    rfl
  | c :: d :: r', x, hn, he => by
    have hsp := noSep_cons2_elim c d r' hn
    have he' : endsWithNewline (d :: r') = false := he
    show splitSep (c :: d :: (r' ++ '\n' :: '\n' :: x)) = _
    rw [splitSep_cons_ne c d (r' ++ '\n' :: '\n' :: x) hsp.1,
      show d :: (r' ++ '\n' :: '\n' :: x) = (d :: r') ++ '\n' :: '\n' :: x from rfl,
      splitSep_record (d :: r') x hsp.2 he']
    rfl

/-- Splitting the raw text of well-formed terminated records followed by
any remainder recovers exactly the records, then the split of the
remainder. -/
theorem splitSep_join : ∀ (records : List Str) (x : Str),
    records.all wellFormed = true →
    splitSep (joinRecords records ++ x) = records ++ splitSep x
  | [], x, _ => by simp [joinRecords]
  | r :: rs, x, h => by
    rw [List.all_cons, Bool.and_eq_true] at h
    have hwf := h.1
    rw [wellFormed, Bool.and_eq_true] at hwf
    show splitSep ((r ++ '\n' :: '\n' :: joinRecords rs) ++ x) = _
    rw [List.append_assoc,
      show ('\n' :: '\n' :: joinRecords rs) ++ x = '\n' :: '\n' :: (joinRecords rs ++ x)
        from rfl,
      splitSep_record r (joinRecords rs ++ x) hwf.1 (by simpa using hwf.2),
      splitSep_join rs x h.2]
    rfl

/-- The decoder run buffer by buffer computes the same records as one split
of the whole concatenated input, dropping the final carry. -/
theorem decodeAll_eq : ∀ (bs : List Str) (b : Str), noSep b = true →
    decodeAll b bs = (splitSep (b ++ joinAll bs)).dropLast
  | [], b, h => by
    simp [decodeAll, joinAll, splitSep_of_noSep b h]
  | v :: rest, b, _ => by
    simp only [decodeAll, decodeStep]
    rw [decodeAll_eq rest _ (noSep_getLastD _ (splitSep_all_noSep (b ++ v))),
      show joinAll (v :: rest) = v ++ joinAll rest from rfl,
      ← List.append_assoc, splitSep_append (b ++ v) (joinAll rest),
      List.dropLast_append_of_ne_nil _ (splitSep_ne_nil _)]

/-! Lemmas about the dispatch loop. -/

/-- Shape of one dispatch step: either the step does not terminate and its
outputs are all non-terminal, or it terminates with a single terminal
output. -/
theorem processLine_cases (parse : Str → Option JsonData) (st : StreamState) (line : Str) :
    ((processLine parse st line).2.2 = false ∧
      (processLine parse st line).2.1.all (fun o => !isTerm o) = true) ∨
    ((processLine parse st line).2.2 = true ∧
      ∃ o, (processLine parse st line).2.1 = [o] ∧ isTerm o = true) := by
  unfold processLine
  by_cases h1 : strStartsWith line dataMarker = true
  · rw [if_pos h1]
    cases parse (List.drop 6 line) with
    | none => exact Or.inl ⟨rfl, rfl⟩
    | some d =>
      dsimp only
      by_cases h2 : d.type = some sessionTag
      · rw [if_pos h2]; exact Or.inl ⟨rfl, rfl⟩
      · rw [if_neg h2]
        by_cases h3 : d.type = some chunkTag
        · rw [if_pos h3]; exact Or.inl ⟨rfl, rfl⟩
        · rw [if_neg h3]
          by_cases h4 : d.type = some doneTag
          · rw [if_pos h4]; exact Or.inr ⟨rfl, _, rfl, rfl⟩
          · rw [if_neg h4]
            by_cases h5 : d.type = some errorTag
            · rw [if_pos h5]; exact Or.inr ⟨rfl, _, rfl, rfl⟩
            · rw [if_neg h5]; exact Or.inl ⟨rfl, rfl⟩
  · rw [if_neg h1]; exact Or.inl ⟨rfl, rfl⟩

/-- When the loop over a record list does not terminate, every output is a
non-terminal callback. -/
theorem processLines_nonterm_all (parse : Str → Option JsonData) :
    ∀ (lines : List Str) (st : StreamState),
    (processLines parse st lines).2.2 = false →
    (processLines parse st lines).2.1.all (fun o => !isTerm o) = true
  | [], _, _ => rfl
  | line :: rest, st, h => by
    simp only [processLines] at h ⊢
    cases hb : (processLine parse st line).2.2 with
    | true => simp [hb] at h
    | false =>
      rw [hb] at h
      simp only [Bool.false_eq_true, if_false] at h ⊢
      rw [List.all_append, Bool.and_eq_true]
      refine ⟨?_, processLines_nonterm_all parse rest (processLine parse st line).1 h⟩
      rcases processLine_cases parse st line with ⟨_, h2⟩ | ⟨h1, _, _, _⟩
      · exact h2
      · rw [hb] at h1
        exact Bool.noConfusion h1

/-- True when a trace contains only non-terminal callbacks. -/
theorem traceOk_of_all_nonterm : ∀ tr : List Out,
    tr.all (fun o => !isTerm o) = true → traceOk tr = true
  | [], _ => rfl
  | o :: rest, h => by
    rw [List.all_cons, Bool.and_eq_true] at h
    have hn : isTerm o = false := by simpa using h.1
    simp only [traceOk, hn, Bool.false_eq_true, if_false]
    exact traceOk_of_all_nonterm rest h.2

theorem traceOk_append_nonterm : ∀ (tr1 tr2 : List Out),
    tr1.all (fun o => !isTerm o) = true → traceOk tr2 = true →
    traceOk (tr1 ++ tr2) = true
  | [], _, _, hb => hb
  | o :: rest, tr2, ha, hb => by
    rw [List.all_cons, Bool.and_eq_true] at ha
    have hn : isTerm o = false := by simpa using ha.1
    show traceOk (o :: (rest ++ tr2)) = true
    simp only [traceOk, hn, Bool.false_eq_true, if_false]
    exact traceOk_append_nonterm rest tr2 ha.2 hb

/-- When the loop over a record list terminates, its trace is a run of
non-terminal callbacks closed by exactly one terminal callback. -/
theorem processLines_term_traceOk (parse : Str → Option JsonData) :
    ∀ (lines : List Str) (st : StreamState),
    (processLines parse st lines).2.2 = true →
    traceOk (processLines parse st lines).2.1 = true
  | [], _, h => by simp [processLines] at h
  | line :: rest, st, h => by
    simp only [processLines] at h ⊢
    cases hb : (processLine parse st line).2.2 with
    | true =>
      simp only [if_pos rfl]
      rcases processLine_cases parse st line with ⟨h1, _⟩ | ⟨_, o, ho, hterm⟩
      · rw [hb] at h1
        exact Bool.noConfusion h1
      · simp [ho, traceOk, hterm]
    | false =>
      rw [hb] at h
      simp only [Bool.false_eq_true, if_false] at h ⊢
      rcases processLine_cases parse st line with ⟨_, h2⟩ | ⟨h1, _, _, _⟩
      · exact traceOk_append_nonterm _ _ h2
          (processLines_term_traceOk parse rest (processLine parse st line).1 h)
      · rw [hb] at h1
        exact Bool.noConfusion h1

/-- Appending record lists when the first part already terminates. -/
theorem processLines_append_term (parse : Str → Option JsonData) :
    ∀ (as bs : List Str) (st : StreamState),
    (processLines parse st as).2.2 = true →
    processLines parse st (as ++ bs) = processLines parse st as
  | [], _, _, h => by simp [processLines] at h
  | line :: rest, bs, st, h => by
    rw [List.cons_append]
    simp only [processLines] at h ⊢
    cases hb : (processLine parse st line).2.2 with
    | true => simp
    | false =>
      rw [hb] at h
      simp only [Bool.false_eq_true, if_false] at h ⊢
      rw [processLines_append_term parse rest bs (processLine parse st line).1 h]

/-- Appending record lists when the first part does not terminate: the
second part continues from the state the first part reached, and the
traces concatenate. -/
theorem processLines_append_nonterm (parse : Str → Option JsonData) :
    ∀ (as bs : List Str) (st : StreamState),
    (processLines parse st as).2.2 = false →
    processLines parse st (as ++ bs)
      = ((processLines parse (processLines parse st as).1 bs).1,
         (processLines parse st as).2.1
           ++ (processLines parse (processLines parse st as).1 bs).2.1,
         (processLines parse (processLines parse st as).1 bs).2.2)
  | [], bs, st, _ => by simp [processLines]
  | line :: rest, bs, st, h => by
    rw [List.cons_append]
    simp only [processLines] at h ⊢
    cases hb : (processLine parse st line).2.2 with
    | true => simp [hb] at h
    | false =>
      rw [hb] at h
      simp only [Bool.false_eq_true, if_false] at h ⊢
      rw [processLines_append_nonterm parse rest bs (processLine parse st line).1 h]
      simp [List.append_assoc]

/-- The buffer loop processes exactly the records the decoder produces:
trace and termination agree with one run of the dispatch loop over the
decoded record list. -/
theorem processBuffers_eq (parse : Str → Option JsonData) :
    ∀ (bs : List Str) (st : StreamState) (b : Str),
    processBuffers parse st b bs
      = ((processLines parse st (decodeAll b bs)).2.1,
         (processLines parse st (decodeAll b bs)).2.2)
  | [], _, _ => by simp [processBuffers, decodeAll, processLines]
  | v :: rest, st, b => by
    simp only [processBuffers, decodeAll]
    cases hf : (processLines parse st (decodeStep b v).1).2.2 with
    | true =>
      rw [if_pos rfl, processLines_append_term parse _ _ _ hf, hf]
    | false =>
      simp only [Bool.false_eq_true, if_false]
      rw [processLines_append_nonterm parse _ _ _ hf,
        processBuffers_eq parse rest (processLines parse st (decodeStep b v).1).1
          (decodeStep b v).2]

/-! Record type tags are pairwise distinct. -/

theorem tag_session_ne_chunk : ¬(sessionTag = chunkTag) := by decide

theorem tag_chunk_ne_session : ¬(chunkTag = sessionTag) := by decide

theorem tag_done_ne_session : ¬(doneTag = sessionTag) := by decide

theorem tag_done_ne_chunk : ¬(doneTag = chunkTag) := by decide

/-- Dispatch of a record without the data marker: no effect. -/
theorem processLine_no_marker (parse : Str → Option JsonData) (st : StreamState)
    (line : Str) (h1 : ¬(strStartsWith line dataMarker = true)) :
    processLine parse st line = (st, [], false) := by
  unfold processLine
  rw [if_neg h1]

/-- Dispatch of a marked record whose body fails to parse: the exception
is caught and logged, no effect. -/
theorem processLine_parse_fail (parse : Str → Option JsonData) (st : StreamState)
    (line : Str) (h1 : strStartsWith line dataMarker = true)
    (hp : parse (List.drop 6 line) = none) :
    processLine parse st line = (st, [], false) := by
  unfold processLine
  rw [if_pos h1, hp]

/-- Dispatch of a marked record whose body parses: the `type` dispatch
chain of the source, laid out explicitly. -/
theorem processLine_parse_ok (parse : Str → Option JsonData) (st : StreamState)
    (line : Str) (d : JsonData) (h1 : strStartsWith line dataMarker = true)
    (hp : parse (List.drop 6 line) = some d) :
    processLine parse st line
      = if d.type = some sessionTag then
          ({ st with currentSessionId := d.session_id }, [], false)
        else if d.type = some chunkTag then
          ({ st with fullResponse := st.fullResponse ++ jsUndef d.content },
            [Out.chunk (jsUndef d.content)], false)
        else if d.type = some doneTag then
          (st, [Out.complete (jsOr d.response st.fullResponse)
                  (jsOr d.session_id (jsOr st.currentSessionId []))], true)
        else if d.type = some errorTag then
          (st, [Out.error (jsOr d.error ("Unknown error".data))], true)
        else (st, [], false) := by
  unfold processLine
  rw [if_pos h1, hp]

/-- One unfolding of the parsed-events list. -/
theorem parsedEvents_cons (parse : Str → Option JsonData) (line : Str) (rest : List Str) :
    parsedEvents parse (line :: rest)
      = match (if strStartsWith line dataMarker then parse (List.drop 6 line) else none) with
        | none => parsedEvents parse rest
        | some d => d :: parsedEvents parse rest := rfl

/-- State characterization: when the dispatch loop does not terminate, the
final full-text buffer extends the initial one by the chunk contents of
the parsed events, in order, and the tracked session id is the one of the
most recent session event (the initial one when no session event
occurred). -/
theorem processLines_nonterm_state (parse : Str → Option JsonData) :
    ∀ (lines : List Str) (st : StreamState),
    (processLines parse st lines).2.2 = false →
    (processLines parse st lines).1
      = ⟨st.fullResponse ++ chunksConcat (parsedEvents parse lines),
         lastSessionSid st.currentSessionId (parsedEvents parse lines)⟩
  | [], st, _ => by
    cases st
    simp [processLines, parsedEvents, chunksConcat, lastSessionSid]
  | line :: rest, st, h => by
    have hrec := processLines_nonterm_state parse rest
    rw [parsedEvents_cons]
    simp only [processLines] at h ⊢
    by_cases h1 : strStartsWith line dataMarker = true
    · rw [if_pos h1]
      cases hp : parse (List.drop 6 line) with
      | none =>
        rw [processLine_parse_fail parse st line h1 hp] at h ⊢
        simp only [Bool.false_eq_true, if_false] at h ⊢
        exact hrec st h
      | some d =>
        rw [processLine_parse_ok parse st line d h1 hp] at h ⊢
        by_cases h2 : d.type = some sessionTag
        · rw [if_pos h2] at h ⊢
          simp only [Bool.false_eq_true, if_false] at h ⊢
          rw [hrec _ h]
          simp [chunksConcat, lastSessionSid, h2, tag_session_ne_chunk]
        · rw [if_neg h2] at h ⊢
          by_cases h3 : d.type = some chunkTag
          · rw [if_pos h3] at h ⊢
            simp only [Bool.false_eq_true, if_false] at h ⊢
            rw [hrec _ h]
            simp [chunksConcat, lastSessionSid, h3, tag_chunk_ne_session,
              List.append_assoc]
          · rw [if_neg h3] at h ⊢
            by_cases h4 : d.type = some doneTag
            · rw [if_pos h4] at h
              simp at h
            · rw [if_neg h4] at h ⊢
              by_cases h5 : d.type = some errorTag
              · rw [if_pos h5] at h
                simp at h
              · rw [if_neg h5] at h ⊢
                simp only [Bool.false_eq_true, if_false] at h ⊢
                rw [hrec st h]
                simp [chunksConcat, lastSessionSid, h2, h3]
    · rw [if_neg h1]
      rw [processLine_no_marker parse st line h1] at h ⊢
      simp only [Bool.false_eq_true, if_false] at h ⊢
      exact hrec st h

/-- Output of a stream whose decoded records are a non-terminating prefix
followed by a record parsing to a done event: the trace of the prefix,
closed by one completion callback carrying the accumulated text (unless
the event carries a non-empty response) and the session id chosen by the
fallback chain of the code. -/
theorem done_event_output (parse : Str → Option JsonData) (sessionId : Option Str)
    (body lines1 lines2 : List Str) (lineD : Str) (d : JsonData)
    (hdec : decodeAll [] body = lines1 ++ lineD :: lines2)
    (hpre : (processLines parse ⟨[], sessionId⟩ lines1).2.2 = false)
    (hmk : strStartsWith lineD dataMarker = true)
    (hpd : parse (List.drop 6 lineD) = some d)
    (hty : d.type = some doneTag) :
    queryAgentStream parse sessionId (.ok body)
      = (processLines parse ⟨[], sessionId⟩ lines1).2.1
        ++ [Out.complete
              (jsOr d.response (chunksConcat (parsedEvents parse lines1)))
              (jsOr d.session_id
                (jsOr (lastSessionSid sessionId (parsedEvents parse lines1)) []))] := by
  show (processBuffers parse ⟨[], sessionId⟩ [] body).1 = _
  rw [processBuffers_eq parse body ⟨[], sessionId⟩ [], hdec,
    processLines_append_nonterm parse lines1 (lineD :: lines2) _ hpre]
  dsimp only
  congr 1
  rw [processLines_nonterm_state parse lines1 ⟨[], sessionId⟩ hpre]
  simp [processLines, processLine, hmk, hpd, hty,
    tag_done_ne_session, tag_done_ne_chunk]

/-- A record carrying the data marker whose body fails to parse changes
neither the state, nor the trace, nor the termination of the dispatch
loop: the loop with the record equals the loop without it. -/
theorem processLines_drop_malformed (parse : Str → Option JsonData)
    (as bs : List Str) (bad : Str) (st : StreamState)
    (hmk : strStartsWith bad dataMarker = true)
    (hpd : parse (List.drop 6 bad) = none) :
    processLines parse st (as ++ bad :: bs) = processLines parse st (as ++ bs) := by
  cases hterm : (processLines parse st as).2.2 with
  | true =>
    rw [processLines_append_term parse as (bad :: bs) st hterm,
      processLines_append_term parse as bs st hterm]
  | false =>
    rw [processLines_append_nonterm parse as (bad :: bs) st hterm,
      processLines_append_nonterm parse as bs st hterm]
    have hstep : processLines parse (processLines parse st as).1 (bad :: bs)
        = processLines parse (processLines parse st as).1 bs := by
      simp [processLines, processLine, hmk, hpd]
    rw [hstep]

/-! Claim theorems. -/

/-- Claim C1, counterexample: for a stream whose single buffer holds one
chunk record and no terminal record, the orchestrator invokes `onChunk`
once and then returns without any terminal callback, so the claimed shape
(zero or more chunks followed by exactly one terminal callback) fails at
this input. -/
theorem stream_terminal_missing_cex :
    queryAgentStream parseDemo none (.ok [("data: chunkA\n\n").data])
      = [Out.chunk ("A".data)] ∧
    seqOk (queryAgentStream parseDemo none (.ok [("data: chunkA\n\n").data])) = false := by
  exact ⟨by decide, by decide⟩

/-- Claim C1, amended: for every parse function, caller session id and HTTP
response, the callback trace of `queryAgentStream` is zero or more
`onChunk` calls followed by at most one terminal callback (`onComplete` or
`onError`); a terminal callback occurs only in last position, so `onChunk`
is never invoked after it, including for chunk records that appear later
in the same raw input buffer as the terminal record. -/
theorem stream_terminal_only_last (parse : Str → Option JsonData) (sessionId : Option Str)
    (resp : HttpResponse) :
    traceOk (queryAgentStream parse sessionId resp) = true := by
  cases resp with
  | netError m => rfl
  | failure detail status body => rfl
  | okNoBody => rfl
  | ok body =>
    show traceOk (processBuffers parse ⟨[], sessionId⟩ [] body).1 = true
    rw [processBuffers_eq]
    cases hf : (processLines parse ⟨[], sessionId⟩ (decodeAll [] body)).2.2 with
    | true => exact processLines_term_traceOk parse _ _ hf
    | false => exact traceOk_of_all_nonterm _ (processLines_nonterm_all parse _ _ hf)
  | okThrow body m =>
    simp only [queryAgentStream]
    rw [processBuffers_eq]
    dsimp only
    cases hf : (processLines parse ⟨[], sessionId⟩ (decodeAll [] body)).2.2 with
    | true =>
      rw [if_pos rfl]
      exact processLines_term_traceOk parse _ _ hf
    | false =>
      simp only [Bool.false_eq_true, if_false]
      exact traceOk_append_nonterm _ _ (processLines_nonterm_all parse _ _ hf) rfl

/-- Claim C2: for all buffer sequences whose concatenation is the raw text
of N well-formed records each terminated by the blank-line separator, the
frame decoder of `queryAgentStream` emits exactly those N records, in
arrival order, regardless of how the bytes are cut across the buffers
(including a separator split across two buffers). -/
theorem decoder_emits_all_records (records buffers : List Str)
    (hwf : records.all wellFormed = true)
    (hjoin : joinAll buffers = joinRecords records) :
    decodeAll [] buffers = records := by
  have hj := splitSep_join records [] hwf
  rw [List.append_nil] at hj
  rw [decodeAll_eq buffers [] rfl, List.nil_append, hjoin, hj]
  simp [splitSep]

/-- Claim C2, witness: two records, with the two newlines of the first
separator split across the two buffers. -/
theorem decoder_emits_all_records_witness :
    decodeAll [] [("ab\n").data, ("\nc\n\n").data] = [("ab").data, ("c").data] :=
  decoder_emits_all_records [("ab").data, ("c").data] [("ab\n").data, ("\nc\n\n").data]
    (by decide) (by decide)

/-- Claim C5: when the byte stream ends mid-record (the raw text is the
records followed by a non-empty separator-free tail), the decoder emits
exactly the complete records and the partial tail is never emitted. -/
theorem decoder_discards_partial_tail (records buffers : List Str) (tailPart : Str)
    (hwf : records.all wellFormed = true)
    (htail : noSep tailPart = true)
    (_hne : tailPart ≠ [])
    (hjoin : joinAll buffers = joinRecords records ++ tailPart) :
    decodeAll [] buffers = records := by
  rw [decodeAll_eq buffers [] rfl, List.nil_append, hjoin,
    splitSep_join records tailPart hwf, splitSep_of_noSep tailPart htail]
  simp

/-- Claim C5, witness: one complete record followed by a partial record cut
across two buffers. -/
theorem decoder_discards_partial_tail_witness :
    decodeAll [] [("ab\n\npar").data, ("tial").data] = [("ab").data] :=
  decoder_discards_partial_tail [("ab").data] [("ab\n\npar").data, ("tial").data]
    (("partial").data) (by decide) (by decide) (by decide) (by decide)

/-- Claim C3, counterexample: the done record carries a present but empty
`session_id` field, a session event with id `S` precedes it, and the code
passes `S` to `onComplete`, while the wording of the claim (field used
whenever present) predicts the empty string. -/
theorem done_session_precedence_cex :
    parseDemo ("doneEmptySid".data) = some ⟨some doneTag, some [], none, none, none⟩ ∧
    queryAgentStream parseDemo none
        (.ok [("data: sessS\n\ndata: doneEmptySid\n\n").data])
      = [Out.complete [] ("S".data)] ∧
    specDoneSessionId (some []) (some ("S".data)) none = [] ∧
    ¬(("S".data : Str) = []) := by
  refine ⟨by decide, by decide, rfl, by decide⟩

/-- Claim C3, amended: on a done event, the session id passed to
`onComplete` is the `session_id` field of the done event when present and
non-empty; otherwise the tracked session id when present and non-empty,
where the tracked id starts as the caller-supplied session id and is
overwritten by the (possibly absent) `session_id` field of every session
event; otherwise the empty string.  The `jsOr` chain below is exactly this
precedence. -/
theorem done_session_precedence (parse : Str → Option JsonData) (sessionId : Option Str)
    (body lines1 lines2 : List Str) (lineD : Str) (d : JsonData)
    (hdec : decodeAll [] body = lines1 ++ lineD :: lines2)
    (hpre : (processLines parse ⟨[], sessionId⟩ lines1).2.2 = false)
    (hmk : strStartsWith lineD dataMarker = true)
    (hpd : parse (List.drop 6 lineD) = some d)
    (hty : d.type = some doneTag) :
    queryAgentStream parse sessionId (.ok body)
      = (processLines parse ⟨[], sessionId⟩ lines1).2.1
        ++ [Out.complete
              (jsOr d.response (chunksConcat (parsedEvents parse lines1)))
              (jsOr d.session_id
                (jsOr (lastSessionSid sessionId (parsedEvents parse lines1)) []))] :=
  done_event_output parse sessionId body lines1 lines2 lineD d hdec hpre hmk hpd hty

/-- Claim C3, witness: a session event assigning `S` followed by a done
event without a session id; the completion callback carries `S`. -/
theorem done_session_precedence_witness :
    queryAgentStream parseDemo none (.ok [("data: sessS\n\ndata: doneNone\n\n").data])
      = (processLines parseDemo ⟨[], none⟩ [("data: sessS").data]).2.1
        ++ [Out.complete
              (jsOr none (chunksConcat (parsedEvents parseDemo [("data: sessS").data])))
              (jsOr none
                (jsOr (lastSessionSid none (parsedEvents parseDemo [("data: sessS").data]))
                  []))] :=
  done_session_precedence parseDemo none
    [("data: sessS\n\ndata: doneNone\n\n").data]
    [("data: sessS").data] [] (("data: doneNone").data)
    ⟨some doneTag, none, none, none, none⟩
    (by decide) (by decide) (by decide) (by decide) (by decide)

/-- Claim C4: when the done event omits its response field or carries an
empty one, `onComplete` receives the concatenation, in arrival order, of
the content of every chunk event delivered before it. -/
theorem done_empty_response_concat (parse : Str → Option JsonData) (sessionId : Option Str)
    (body lines1 lines2 : List Str) (lineD : Str) (d : JsonData)
    (hdec : decodeAll [] body = lines1 ++ lineD :: lines2)
    (hpre : (processLines parse ⟨[], sessionId⟩ lines1).2.2 = false)
    (hmk : strStartsWith lineD dataMarker = true)
    (hpd : parse (List.drop 6 lineD) = some d)
    (hty : d.type = some doneTag)
    (hresp : d.response = none ∨ d.response = some []) :
    ∃ sid, queryAgentStream parse sessionId (.ok body)
      = (processLines parse ⟨[], sessionId⟩ lines1).2.1
        ++ [Out.complete (chunksConcat (parsedEvents parse lines1)) sid] := by
  have hj : jsOr d.response (chunksConcat (parsedEvents parse lines1))
      = chunksConcat (parsedEvents parse lines1) := by
    rcases hresp with hr | hr <;> simp [jsOr, hr]
  exact ⟨_, by
    rw [done_event_output parse sessionId body lines1 lines2 lineD d hdec hpre hmk hpd hty,
      hj]⟩

/-- Claim C4, witness: the event sequence chunk `A`, chunk `B`, done with
no response, delivered in one buffer; `onComplete` receives `AB`. -/
theorem done_empty_response_concat_witness :
    ∃ sid, queryAgentStream parseDemo none
        (.ok [("data: chunkA\n\ndata: chunkB\n\ndata: doneNone\n\n").data])
      = (processLines parseDemo ⟨[], none⟩
          [("data: chunkA").data, ("data: chunkB").data]).2.1
        ++ [Out.complete
              (chunksConcat (parsedEvents parseDemo
                [("data: chunkA").data, ("data: chunkB").data])) sid] :=
  done_empty_response_concat parseDemo none
    [("data: chunkA\n\ndata: chunkB\n\ndata: doneNone\n\n").data]
    [("data: chunkA").data, ("data: chunkB").data] [] (("data: doneNone").data)
    ⟨some doneTag, none, none, none, none⟩
    (by decide) (by decide) (by decide) (by decide) (by decide) (Or.inl rfl)

/-- Claim C6: a non-success initial HTTP status short-circuits to exactly
one `onError` call carrying the server-supplied detail when truthy and the
generic HTTP-status message otherwise; no `onChunk` occurs and the trace
does not depend on the response body, so no event parsing occurs. -/
theorem http_failure_short_circuit (parse : Str → Option JsonData)
    (sessionId detail : Option Str) (status : Nat) (body : List Str) :
    queryAgentStream parse sessionId (.failure detail status body)
      = [Out.error (jsOr detail (statusMessage status))] := rfl

/-- Claim C7: a record carrying the data marker whose body fails to parse
is dropped: the trace of the stream containing it equals the trace of the
stream without it, so no callback is invoked for it, nothing is raised,
and every record before and after it is processed normally. -/
theorem malformed_record_dropped (parse : Str → Option JsonData) (sessionId : Option Str)
    (body body2 as bs : List Str) (bad : Str)
    (h1 : decodeAll [] body = as ++ bad :: bs)
    (h2 : decodeAll [] body2 = as ++ bs)
    (h3 : strStartsWith bad dataMarker = true)
    (h4 : parse (List.drop 6 bad) = none) :
    queryAgentStream parse sessionId (.ok body)
      = queryAgentStream parse sessionId (.ok body2) := by
  show (processBuffers parse ⟨[], sessionId⟩ [] body).1
      = (processBuffers parse ⟨[], sessionId⟩ [] body2).1
  rw [processBuffers_eq, processBuffers_eq, h1, h2,
    processLines_drop_malformed parse as bs bad ⟨[], sessionId⟩ h3 h4]

/-- Claim C7, witness: a malformed record between a valid chunk record and
a valid done record; the traces with and without it coincide. -/
theorem malformed_record_dropped_witness :
    queryAgentStream parseDemo none
        (.ok [("data: chunkA\n\ndata: oops\n\ndata: doneNone\n\n").data])
      = queryAgentStream parseDemo none
        (.ok [("data: chunkA\n\ndata: doneNone\n\n").data]) :=
  malformed_record_dropped parseDemo none
    [("data: chunkA\n\ndata: oops\n\ndata: doneNone\n\n").data]
    [("data: chunkA\n\ndata: doneNone\n\n").data]
    [("data: chunkA").data] [("data: doneNone").data] (("data: oops").data)
    (by decide) (by decide) (by decide) (by decide)

/-- Claim C8: on a page-hide event with an active (non-empty) session id,
a current-load navigation type of reload issues no deletion request, and
any other navigation type with the page not cached for restore issues
exactly one deletion request for the active session. -/
theorem pagehide_reload_vs_close (sid : Str) (persisted : Bool) (navType : Option Str)
    (hsid : sid ≠ []) :
    (navType = some ("reload".data) → handlePageHide (some sid) persisted navType = []) ∧
    (¬(navType = some ("reload".data)) → persisted = false →
      handlePageHide (some sid) persisted navType = [CleanupRequest.deleteSession sid]) := by
  constructor
  · intro hr
    simp [handlePageHide, hsid, hr]
  · intro hr hp
    subst hp
    simp [handlePageHide, hsid, hr]

/-- Claim C8, witness: with session id `S`, a reload page-hide issues no
request and a navigate page-hide issues exactly one deletion request. -/
theorem pagehide_reload_vs_close_witness :
    handlePageHide (some ("S".data)) false (some ("reload".data)) = [] ∧
    handlePageHide (some ("S".data)) false (some ("navigate".data))
      = [CleanupRequest.deleteSession ("S".data)] :=
  ⟨(pagehide_reload_vs_close ("S".data) false (some ("reload".data)) (by decide)).1 rfl,
   (pagehide_reload_vs_close ("S".data) false (some ("navigate".data)) (by decide)).2
     (by decide) rfl⟩

/-- Claim C9, counterexample: when the conversation load inside
`handleConversationSelect` fails, the catch path leaves the previous
session id in place (while the conversation id has already been switched),
so the next query would still carry the old session id. -/
theorem conversation_select_failure_cex :
    submitSessionArg (handleConversationSelect demoState (("conv2").data) LoadResult.failure)
      = some ("S".data) ∧
    ¬(submitSessionArg
        (handleConversationSelect demoState (("conv2").data) LoadResult.failure) = none) := by
  exact ⟨rfl, by decide⟩

/-- Claim C9, amended: `handleNewChat` always resets the ephemeral session
id to none, and `handleConversationSelect` resets it whenever the
conversation load succeeds, so the next `queryAgentStream` call after
either operation is issued with no prior session id; on a failed load the
previous session id is retained. -/
theorem session_reset_on_switch (st : ChatState) (cid : Str) (title : Option Str)
    (msgs : List ConvMessage) :
    submitSessionArg (handleConversationSelect st cid (.success title msgs)) = none ∧
    submitSessionArg (handleNewChat st) = none :=
  ⟨rfl, rfl⟩

/-- Claim C10: when the buffer loop reaches end of stream without a
terminal event having been dispatched, the call returns with no terminal
callback: every callback in the trace is an `onChunk` call. -/
theorem eof_without_terminal (parse : Str → Option JsonData) (sessionId : Option Str)
    (body : List Str)
    (h : (processBuffers parse ⟨[], sessionId⟩ [] body).2 = false) :
    (queryAgentStream parse sessionId (.ok body)).all (fun o => !isTerm o) = true := by
  show ((processBuffers parse ⟨[], sessionId⟩ [] body).1).all _ = true
  rw [processBuffers_eq] at h ⊢
  exact processLines_nonterm_all parse _ _ h

/-- Claim C10, witness: a stream delivering a session event and a chunk and
then ending; the trace holds no terminal callback. -/
theorem eof_without_terminal_witness :
    (queryAgentStream parseDemo none
        (.ok [("data: sessS\n\ndata: chunkA\n\n").data])).all (fun o => !isTerm o) = true :=
  eof_without_terminal parseDemo none [("data: sessS\n\ndata: chunkA\n\n").data] (by decide)
